import Mathlib

/-! Material imbalance and the material hash table (`src/material.cpp`).

A shallow embedding of `imbalance<Us>` and `Material::probe` together with the
properties the specification states about them.

`material.cpp` is the only translation unit at hand.  What it uses from `types.h`,
`material.h`, `misc.h` and `position.h` (the `Score` type and its operators, the
enumerators, the numeric limits, the layout of `Entry`, the hash table and the
`Position` accessors) is either taken as a parameter or modelled from the
specification; each such definition says so in its doc comment.
-/

namespace Stockfish

/-! ## Types the source takes from its headers -/

/-- Modelled from the spec: the enumeration `Color` of `types.h`, the two sides. -/
inductive Color
  | WHITE
  | BLACK
  deriving DecidableEq, Fintype, Repr

/-- The operator `~` on colours, as used in `constexpr Color Them = ~Us`. -/
def Color.flip : Color → Color
  | .WHITE => .BLACK
  | .BLACK => .WHITE

/-- Modelled from the spec: the `Score` type of `types.h` ("ScorePair: ordered pair
(midgameValue, endgameValue), both signed integers").  The header and with it the
encoding of the two lanes in one `int` is not part of the sources at hand, so a score
is carried as its two lanes. -/
structure Score where
  mg : Int
  eg : Int
  deriving DecidableEq, Repr

/-- Modelled from the spec: `make_score(mg, eg)` of `types.h`. -/
def make_score (mg eg : Int) : Score := ⟨mg, eg⟩

/-- Modelled from the spec: the enumerator `SCORE_ZERO`. -/
def SCORE_ZERO : Score := make_score 0 0

/-- Modelled from the spec: "Addition, subtraction, and scalar multiplication act
independently per lane." -/
instance : Add Score := ⟨fun a b => ⟨a.mg + b.mg, a.eg + b.eg⟩⟩

instance : Sub Score := ⟨fun a b => ⟨a.mg - b.mg, a.eg - b.eg⟩⟩

instance : Neg Score := ⟨fun a => ⟨-a.mg, -a.eg⟩⟩

/-- The product `Score * int`. -/
instance : HMul Score Int Score := ⟨fun s i => ⟨s.mg * i, s.eg * i⟩⟩

/-- The product `int * v` where `v` holds a score. -/
instance : HMul Int Score Score := ⟨fun i s => ⟨i * s.mg, i * s.eg⟩⟩

/-- Modelled from the spec: `Score / int`, "preserving ScorePair lane-wise division";
each lane is divided as C++ divides `int`s, truncating toward zero. -/
instance : HDiv Score Int Score := ⟨fun s i => ⟨Int.tdiv s.mg i, Int.tdiv s.eg i⟩⟩

/-- Modelled from the spec: the piece type enumerators of `types.h` that index the
imbalance tables, "a fixed ordered set {BishopPairMarker, Pawn, Knight, Bishop, Rook,
Queen}"; `NO_PIECE_TYPE` is the place holder for the bishop pair. -/
abbrev PieceType := Nat

def NO_PIECE_TYPE : PieceType := 0
def PAWN : PieceType := 1
def KNIGHT : PieceType := 2
def BISHOP : PieceType := 3
def ROOK : PieceType := 4
def QUEEN : PieceType := 5

/-! ## The imbalance tables -/

/-- The macro `S(mg, eg)`. -/
def S (mg eg : Int) : Score := make_score mg eg

/-- The initialiser of `QuadraticOurs`, row by row as written in the source. -/
def QuadraticOurs : List (List Score) :=
  [ [S 1419 1455],
    [S 101 28, S 37 39],
    [S 57 64, S 249 187, S (-49) (-62)],
    [S 0 0, S 118 137, S 10 27, S 0 0],
    [S (-63) (-68), S (-5) 3, S 100 81, S 132 118, S (-246) (-244)],
    [S (-210) (-211), S 37 14, S 147 141, S 161 105, S (-158) (-174), S (-9) (-31)] ]

/-- The initialiser of `QuadraticTheirs`, row by row as written in the source. -/
def QuadraticTheirs : List (List Score) :=
  [ [],
    [S 33 30],
    [S 46 18, S 106 84],
    [S 75 35, S 59 44, S 60 15],
    [S 26 35, S 6 22, S 38 39, S (-12) (-2)],
    [S 97 93, S 100 163, S (-58) (-91), S 112 192, S 276 225] ]

/-- The read `tbl[pt1][pt2]` of a table declared `Score tbl[][PIECE_TYPE_NB]`: the
elements of a row the initialiser does not list are zero. -/
def tableAt (tbl : List (List Score)) (pt1 pt2 : Nat) : Score :=
  (tbl.getD pt1 []).getD pt2 SCORE_ZERO

/-! ## `imbalance<Us>` -/

/-- The inner loop of `imbalance`:
`for (int pt2 = NO_PIECE_TYPE; pt2 < pt1; ++pt2) v += ...`, started from `v0`. -/
def imbalanceInner (Us : Color) (pieceCount : Color → Nat → Int) (pt1 : Nat)
    (v0 : Score) : Score :=
  (List.range' NO_PIECE_TYPE (pt1 - NO_PIECE_TYPE)).foldl
    (fun v pt2 =>
      v + (tableAt QuadraticOurs pt1 pt2 * pieceCount Us pt2
            + tableAt QuadraticTheirs pt1 pt2 * pieceCount Us.flip pt2))
    v0

/-- One pass through the body of the outer loop of `imbalance` for `pt1`. -/
def imbalanceBody (Us : Color) (pieceCount : Color → Nat → Int) (bonus : Score)
    (pt1 : Nat) : Score :=
  if pieceCount Us pt1 = 0 then
    bonus
  else
    let v := imbalanceInner Us pieceCount pt1
      (tableAt QuadraticOurs pt1 pt1 * pieceCount Us pt1)
    bonus + pieceCount Us pt1 * v

/-- The function `imbalance<Us>(pieceCount)`:
`for (int pt1 = NO_PIECE_TYPE; pt1 <= QUEEN; ++pt1)` over `imbalanceBody`. -/
def imbalance (Us : Color) (pieceCount : Color → Nat → Int) : Score :=
  (List.range' NO_PIECE_TYPE (QUEEN + 1 - NO_PIECE_TYPE)).foldl
    (imbalanceBody Us pieceCount) SCORE_ZERO

/-! ## `Material::probe` -/

/-- The constants `probe` takes from `types.h`, which is not among the sources: they
are parameters of the development. -/
structure Consts where
  EndgameLimit : Int
  MidgameLimit : Int
  PHASE_MIDGAME : Int
  SCALE_FACTOR_NORMAL : Int

/-- Modelled from the spec: the collaborator contract of the position component,
`materialFingerprint()`, `nonPawnMaterial(side)` and `pieceCount(side, pieceType)`
(`material_key`, `non_pawn_material` and `count<Pt>` in the source). -/
structure Position where
  material_key : Nat
  non_pawn_material : Color → Int
  count : PieceType → Color → Int

/-- Modelled from the spec: `Material::Entry` of `material.h`.  The fields this file
reads or writes are `key`, `score`, `gamePhase` and `factor[COLOR_NB]`; whatever else
the structure holds is carried as `rest`, the remaining bytes read as one unsigned
number, which is zero exactly when all of them are zero. -/
structure Entry where
  key : Nat
  score : Score
  gamePhase : Int
  factor : Color → Nat
  rest : Nat
  deriving DecidableEq

/-- The effect of `std::memset(e, 0, sizeof(Entry))`. -/
def Entry.memset0 (_e : Entry) : Entry :=
  { key := 0, score := SCORE_ZERO, gamePhase := 0, factor := fun _ => 0, rest := 0 }

/-- Modelled from the spec: the material hash table of `misc.h`, "an ordered,
fixed-length sequence of CacheEntry slots" whose "table size is a power of two". -/
abbrev Table (bits : Nat) := Fin (2 ^ bits) → Entry

/-- Modelled from the spec: `materialTable[key]`, "index = low bits of fingerprint". -/
def slotOf (bits : Nat) (key : Nat) : Fin (2 ^ bits) :=
  ⟨key % 2 ^ bits, Nat.mod_lt _ (Nat.pos_pow_of_pos bits (by decide))⟩

/-- The function `std::clamp(v, lo, hi)`. -/
def clamp (v lo hi : Int) : Int :=
  if v < lo then lo else if hi < v then hi else v

/-- The cast `(uint8_t) x`. -/
def toUInt8 (x : Int) : Nat := (x % 256).toNat

/-- The value `probe` stores in `e->gamePhase` for the two non-pawn material values. -/
def gamePhaseOf (K : Consts) (npm_w npm_b : Int) : Int :=
  let npm := clamp (npm_w + npm_b) K.EndgameLimit K.MidgameLimit
  Int.tdiv ((npm - K.EndgameLimit) * K.PHASE_MIDGAME) (K.MidgameLimit - K.EndgameLimit)

/-- One row of the local array `pieceCount` of `probe`, for the counts of one side. -/
def countRow (bishops pawns knights rooks queens : Int) : List Int :=
  [if bishops > 1 then 1 else 0, pawns, knights, bishops, rooks, queens]

/-- The local array `pieceCount[COLOR_NB][PIECE_TYPE_NB]` of `probe`. -/
def pieceCountOf (pos : Position) (c : Color) (pt : Nat) : Int :=
  (countRow (pos.count BISHOP c) (pos.count PAWN c) (pos.count KNIGHT c)
    (pos.count ROOK c) (pos.count QUEEN c)).getD pt 0

/-- The value `probe` stores in `e->score` for the array `pieceCount`. -/
def scoreOf (pieceCount : Color → Nat → Int) : Score :=
  (imbalance .WHITE pieceCount - imbalance .BLACK pieceCount) / (16 : Int)

/-- The statements of `probe` after the hit test, applied to the slot `e`. -/
def recompute (K : Consts) (pos : Position) (e : Entry) : Entry :=
  let e := e.memset0
  let e := { e with key := pos.material_key }
  let e := { e with factor := fun _ => toUInt8 K.SCALE_FACTOR_NORMAL }
  let npm_w := pos.non_pawn_material .WHITE
  let npm_b := pos.non_pawn_material .BLACK
  let e := { e with gamePhase := gamePhaseOf K npm_w npm_b }
  { e with score := scoreOf (pieceCountOf pos) }

/-- The outcome of a call of `probe`: the table as the call leaves it and the
returned pointer `e`, given as the slot it points to. -/
structure Probed (bits : Nat) where
  materialTable : Table bits
  e : Fin (2 ^ bits)

/-- The entry the returned pointer points to. -/
def Probed.entry {bits : Nat} (r : Probed bits) : Entry := r.materialTable r.e

namespace Material

/-- The function `Material::probe(pos)`, on the material table of the position's
thread. -/
def probe {bits : Nat} (K : Consts) (materialTable : Table bits) (pos : Position) :
    Probed bits :=
  let key := pos.material_key
  let e := slotOf bits key
  if (materialTable e).key = key then
    ⟨materialTable, e⟩
  else
    ⟨Function.update materialTable e (recompute K pos (materialTable e)), e⟩

end Material

/-! ## Configurations -/

/-- The array `pieceCount` whose row for `Us` is `own` and whose other row is `opp`. -/
def countsFor (Us : Color) (own opp : Nat → Int) : Color → Nat → Int :=
  fun c => if c = Us then own else opp

/-- The mirrored position: the two sides exchange their pieces. -/
def Position.mirror (pos : Position) : Position :=
  { material_key := pos.material_key
    non_pawn_material := fun c => pos.non_pawn_material c.flip
    count := fun pt c => pos.count pt c.flip }

/-! ## Sample inputs -/

/-- A choice of the constants: limits 3915 and 15258, 128 phases, neutral factor 64. -/
def sampleConsts : Consts :=
  { EndgameLimit := 3915, MidgameLimit := 15258, PHASE_MIDGAME := 128,
    SCALE_FACTOR_NORMAL := 64 }

/-- An entry with every byte zero. -/
def zeroEntry : Entry :=
  { key := 0, score := SCORE_ZERO, gamePhase := 0, factor := fun _ => 0, rest := 0 }

/-- A table of four slots in which every slot is zero. -/
def sampleTable : Table 2 := fun _ => zeroEntry

/-- A table of four slots whose slot 1 holds key 5 with contents that no probe
computed. -/
def staleTable : Table 2 := fun i =>
  if i = 1 then
    { key := 5, score := make_score 7 (-3), gamePhase := 11, factor := fun _ => 9,
      rest := 4 }
  else zeroEntry

/-- A position with key 5: White has two bishops and three pawns, Black one bishop
and three pawns. -/
def samplePos : Position :=
  { material_key := 5
    non_pawn_material := fun c => match c with
      | .WHITE => 1650
      | .BLACK => 825
    count := fun pt c =>
      if pt = BISHOP then (match c with
        | .WHITE => 2
        | .BLACK => 1)
      else if pt = PAWN then 3 else 0 }

/-- The position `pos` with the number of bishops of side `c` replaced by `k`. -/
def Position.withBishops (pos : Position) (c : Color) (k : Int) : Position :=
  { pos with count := fun pt c' => if pt = BISHOP ∧ c' = c then k else pos.count pt c' }

/-- A position with key 9, which addresses the same slot of a four-slot table as key
5: each side has a rook and a pawn. -/
def samplePosB : Position :=
  { material_key := 9
    non_pawn_material := fun _ => 1276
    count := fun pt _ => if pt = ROOK ∨ pt = PAWN then 1 else 0 }

/-- A position with key 6 and heavy material: each side has a queen, two rooks and
four pawns. -/
def samplePosHeavy : Position :=
  { material_key := 6
    non_pawn_material := fun _ => 5090
    count := fun pt _ =>
      if pt = QUEEN then 1 else if pt = ROOK then 2 else if pt = PAWN then 4 else 0 }

/-- The position at the start of a game, with key 7: each side has eight pawns, two
knights, two bishops, two rooks and a queen. -/
def startPos : Position :=
  { material_key := 7
    non_pawn_material := fun _ => 8302
    count := fun pt _ =>
      if pt = PAWN then 8 else if pt = QUEEN then 1
      else if pt = KNIGHT ∨ pt = BISHOP ∨ pt = ROOK then 2 else 0 }

/-- A position with key 10: White has two bishops and six queens, Black one bishop
and six queens. -/
def sixQueensPos : Position :=
  { material_key := 10
    non_pawn_material := fun _ => 16000
    count := fun pt c =>
      if pt = BISHOP then (match c with
        | .WHITE => 2
        | .BLACK => 1)
      else if pt = QUEEN then 6 else 0 }

/-- The sample position `samplePos` with key 0 instead of 5. -/
def samplePosKey0 : Position := { samplePos with material_key := 0 }

/-- The sample position `samplePosB` with key 4, which addresses slot 0 of a
four-slot table as key 0 does. -/
def samplePosKey4 : Position := { samplePosB with material_key := 4 }

/-! ## The table over a sequence of calls -/

/-- The table in which every slot is all zero. -/
def zeroTable (bits : Nat) : Table bits := fun _ => zeroEntry

/-- The table after the calls `probe(pos)` for the positions of `ps`, in order. -/
def probeAll {bits : Nat} (K : Consts) (materialTable : Table bits) (ps : List Position) :
    Table bits :=
  ps.foldl (fun t pos => (Material.probe K t pos).materialTable) materialTable

/-! ## The loop of `imbalance` without the `continue` -/

/-- The loop of `imbalance` in which no piece type is skipped: the body adds
`pieceCount[Us][pt1] * v` for every `pt1`, also when the count is zero. -/
def imbalanceNoSkip (Us : Color) (pieceCount : Color → Nat → Int) : Score :=
  (List.range' NO_PIECE_TYPE (QUEEN + 1 - NO_PIECE_TYPE)).foldl
    (fun bonus pt1 =>
      bonus + pieceCount Us pt1 * imbalanceInner Us pieceCount pt1
        (tableAt QuadraticOurs pt1 pt1 * pieceCount Us pt1))
    SCORE_ZERO

/-! ## The reads `imbalance` makes of the two tables -/

/-- The two tables. -/
inductive TableId
  | Ours
  | Theirs
  deriving DecidableEq, Repr

/-- A read `tbl[pt1][pt2]` of one of the tables. -/
structure Read where
  tbl : TableId
  pt1 : Nat
  pt2 : Nat
  deriving DecidableEq, Repr

/-- The inner loop of `imbalance` with the reads it makes appended to a log. -/
def imbalanceInnerTraced (Us : Color) (pieceCount : Color → Nat → Int) (pt1 : Nat)
    (s0 : Score × List Read) : Score × List Read :=
  (List.range' NO_PIECE_TYPE (pt1 - NO_PIECE_TYPE)).foldl
    (fun s pt2 =>
      (s.1 + (tableAt QuadraticOurs pt1 pt2 * pieceCount Us pt2
                + tableAt QuadraticTheirs pt1 pt2 * pieceCount Us.flip pt2),
        s.2 ++ [⟨.Ours, pt1, pt2⟩, ⟨.Theirs, pt1, pt2⟩]))
    s0

/-- The body of the outer loop of `imbalance` with the log of reads. -/
def imbalanceBodyTraced (Us : Color) (pieceCount : Color → Nat → Int)
    (s : Score × List Read) (pt1 : Nat) : Score × List Read :=
  if pieceCount Us pt1 = 0 then
    s
  else
    let v := imbalanceInnerTraced Us pieceCount pt1
      (tableAt QuadraticOurs pt1 pt1 * pieceCount Us pt1, s.2 ++ [⟨.Ours, pt1, pt1⟩])
    (s.1 + pieceCount Us pt1 * v.1, v.2)

/-- The function `imbalance<Us>` with the log of the reads of the tables it makes, in
the order it makes them. -/
def imbalanceTraced (Us : Color) (pieceCount : Color → Nat → Int) : Score × List Read :=
  (List.range' NO_PIECE_TYPE (QUEEN + 1 - NO_PIECE_TYPE)).foldl
    (imbalanceBodyTraced Us pieceCount) (SCORE_ZERO, [])

/-- The number of entries the initialiser of a table writes in row `pt1`. -/
def rowWritten (tbl : List (List Score)) (pt1 : Nat) : Nat := (tbl.getD pt1 []).length

/-- The table a read goes to. -/
def TableId.table : TableId → List (List Score)
  | .Ours => QuadraticOurs
  | .Theirs => QuadraticTheirs

/-! ## The endgame functions -/

/-- The values of the colours as array indices: row 0 of `pieceCount` is filled from
the counts of `WHITE`, row 1 from those of `BLACK`. -/
def Color.index : Color → Nat
  | .WHITE => 0
  | .BLACK => 1

/-- The endgame codes this file instantiates `Endgame` with. -/
inductive EndgameCode
  | KXK
  | KBPsK
  | KQKRPs
  | KPsK
  | KPKP
  deriving DecidableEq, Repr

/-- Modelled from the spec: the class template `Endgame<E>` of `endgame.h`, a
"stateless, color-parameterized evaluator or scaler"; the object built by
`Endgame<E>(c)` records the strong side `c` it was constructed with. -/
structure Endgame (E : EndgameCode) where
  strongSide : Color
  deriving DecidableEq, Repr

/-- What an array of endgame functions offers, as its name in the source says:
`Evaluate...` or `Scale...`. -/
inductive Capability
  | evaluate
  | scale
  deriving DecidableEq, Repr

def EvaluateKXK : List (Endgame .KXK) := [⟨.WHITE⟩, ⟨.BLACK⟩]

def ScaleKBPsK : List (Endgame .KBPsK) := [⟨.WHITE⟩, ⟨.BLACK⟩]

def ScaleKQKRPs : List (Endgame .KQKRPs) := [⟨.WHITE⟩, ⟨.BLACK⟩]

def ScaleKPsK : List (Endgame .KPsK) := [⟨.WHITE⟩, ⟨.BLACK⟩]

def ScaleKPKP : List (Endgame .KPKP) := [⟨.WHITE⟩, ⟨.BLACK⟩]

/-- The arrays of endgame functions the file declares, in the order of the source:
the code of each, the capability its name gives and the strong sides of its
instances in array order. -/
def endgameArrays : List (EndgameCode × Capability × List Color) :=
  [ (.KXK, .evaluate, EvaluateKXK.map fun x => x.strongSide),
    (.KBPsK, .scale, ScaleKBPsK.map fun x => x.strongSide),
    (.KQKRPs, .scale, ScaleKQKRPs.map fun x => x.strongSide),
    (.KPsK, .scale, ScaleKPsK.map fun x => x.strongSide),
    (.KPKP, .scale, ScaleKPKP.map fun x => x.strongSide) ]

/-! ## Lanes of the score operations -/

@[simp]
theorem Score.add_mg (a b : Score) : (a + b).mg = a.mg + b.mg := rfl
@[simp]
theorem Score.add_eg (a b : Score) : (a + b).eg = a.eg + b.eg := rfl
@[simp]
theorem Score.sub_mg (a b : Score) : (a - b).mg = a.mg - b.mg := rfl
@[simp]
theorem Score.sub_eg (a b : Score) : (a - b).eg = a.eg - b.eg := rfl
@[simp]
theorem Score.neg_mg (a : Score) : (-a).mg = -a.mg := rfl
@[simp]
theorem Score.neg_eg (a : Score) : (-a).eg = -a.eg := rfl
@[simp]
theorem Score.mul_int_mg (s : Score) (i : Int) : (s * i).mg = s.mg * i := rfl
@[simp]
theorem Score.mul_int_eg (s : Score) (i : Int) : (s * i).eg = s.eg * i := rfl
@[simp]
theorem Score.int_mul_mg (i : Int) (s : Score) : (i * s).mg = i * s.mg := rfl
@[simp]
theorem Score.int_mul_eg (i : Int) (s : Score) : (i * s).eg = i * s.eg := rfl
@[simp]
theorem Score.div_mg (s : Score) (i : Int) : (s / i).mg = Int.tdiv s.mg i := rfl
@[simp]
theorem Score.div_eg (s : Score) (i : Int) : (s / i).eg = Int.tdiv s.eg i := rfl
@[simp]
theorem SCORE_ZERO_mg : SCORE_ZERO.mg = 0 := rfl
@[simp]
theorem SCORE_ZERO_eg : SCORE_ZERO.eg = 0 := rfl

theorem Score.ext_lanes {a b : Score} (hm : a.mg = b.mg) (he : a.eg = b.eg) : a = b := by
  cases a; cases b; simp_all

/-! ## The loops of `imbalance` as sums -/

/-- A left fold that adds `f pt` to a score, read lane by lane. -/
theorem foldl_add_lanes (f : Nat → Score) (l : List Nat) (v0 : Score) :
    (l.foldl (fun v pt => v + f pt) v0).mg = v0.mg + (l.map fun pt => (f pt).mg).sum ∧
    (l.foldl (fun v pt => v + f pt) v0).eg = v0.eg + (l.map fun pt => (f pt).eg).sum := by
  induction l generalizing v0 with
  | nil => simp
  | cons a l ih =>
    simp only [List.foldl_cons, List.map_cons, List.sum_cons]
    obtain ⟨h1, h2⟩ := ih (v0 + f a)
    rw [h1, h2]
    simp [add_assoc]

/-- The body of the outer loop adds `pieceCount[Us][pt1] * v` whether or not the
`continue` is taken. -/
theorem imbalanceBody_eq (Us : Color) (pieceCount : Color → Nat → Int) (bonus : Score)
    (pt1 : Nat) :
    imbalanceBody Us pieceCount bonus pt1 =
      bonus + pieceCount Us pt1 * imbalanceInner Us pieceCount pt1
        (tableAt QuadraticOurs pt1 pt1 * pieceCount Us pt1) := by
  unfold imbalanceBody
  split
  · next h => apply Score.ext_lanes <;> simp [h]
  · rfl

/-- The sum of a list built over `List.range n` is the sum over `Finset.range n`. -/
theorem sum_map_range_eq (g : Nat → Int) (n : Nat) :
    ((List.range n).map g).sum = ∑ i ∈ Finset.range n, g i := by
  induction n with
  | zero => simp
  | succ n ih => simp [List.range_succ, Finset.sum_range_succ, ih]

/-- The inner loop of `imbalance`, lane by lane, as a sum over `pt2 < pt1`. -/
theorem imbalanceInner_lanes (Us : Color) (pieceCount : Color → Nat → Int) (pt1 : Nat)
    (v0 : Score) :
    (imbalanceInner Us pieceCount pt1 v0).mg =
      v0.mg + ∑ pt2 ∈ Finset.range pt1,
        ((tableAt QuadraticOurs pt1 pt2).mg * pieceCount Us pt2
          + (tableAt QuadraticTheirs pt1 pt2).mg * pieceCount Us.flip pt2) ∧
    (imbalanceInner Us pieceCount pt1 v0).eg =
      v0.eg + ∑ pt2 ∈ Finset.range pt1,
        ((tableAt QuadraticOurs pt1 pt2).eg * pieceCount Us pt2
          + (tableAt QuadraticTheirs pt1 pt2).eg * pieceCount Us.flip pt2) := by
  unfold imbalanceInner
  have hr : List.range' NO_PIECE_TYPE (pt1 - NO_PIECE_TYPE) = List.range pt1 := by
    simp [NO_PIECE_TYPE, List.range_eq_range']
  obtain ⟨h1, h2⟩ := foldl_add_lanes
    (fun pt2 => tableAt QuadraticOurs pt1 pt2 * pieceCount Us pt2
      + tableAt QuadraticTheirs pt1 pt2 * pieceCount Us.flip pt2)
    (List.range pt1) v0
  rw [hr, h1, h2, sum_map_range_eq, sum_map_range_eq]
  simp

/-- The whole of `imbalance`, lane by lane, as a double sum. -/
theorem imbalance_lanes (Us : Color) (pieceCount : Color → Nat → Int) :
    (imbalance Us pieceCount).mg =
      ∑ pt1 ∈ Finset.range 6, pieceCount Us pt1 *
        ((tableAt QuadraticOurs pt1 pt1).mg * pieceCount Us pt1
          + ∑ pt2 ∈ Finset.range pt1,
              ((tableAt QuadraticOurs pt1 pt2).mg * pieceCount Us pt2
                + (tableAt QuadraticTheirs pt1 pt2).mg * pieceCount Us.flip pt2)) ∧
    (imbalance Us pieceCount).eg =
      ∑ pt1 ∈ Finset.range 6, pieceCount Us pt1 *
        ((tableAt QuadraticOurs pt1 pt1).eg * pieceCount Us pt1
          + ∑ pt2 ∈ Finset.range pt1,
              ((tableAt QuadraticOurs pt1 pt2).eg * pieceCount Us pt2
                + (tableAt QuadraticTheirs pt1 pt2).eg * pieceCount Us.flip pt2)) := by
  unfold imbalance
  have hr : List.range' NO_PIECE_TYPE (QUEEN + 1 - NO_PIECE_TYPE) = List.range 6 := by
    simp [NO_PIECE_TYPE, QUEEN, List.range_eq_range']
  have hb : imbalanceBody Us pieceCount = fun bonus pt1 =>
      bonus + pieceCount Us pt1 * imbalanceInner Us pieceCount pt1
        (tableAt QuadraticOurs pt1 pt1 * pieceCount Us pt1) := by
    funext bonus pt1
    exact imbalanceBody_eq Us pieceCount bonus pt1
  obtain ⟨h1, h2⟩ := foldl_add_lanes
    (fun pt1 => pieceCount Us pt1 * imbalanceInner Us pieceCount pt1
        (tableAt QuadraticOurs pt1 pt1 * pieceCount Us pt1))
    (List.range 6) SCORE_ZERO
  rw [hr, hb, h1, h2, sum_map_range_eq, sum_map_range_eq]
  constructor
  · simp only [SCORE_ZERO_mg, zero_add, Score.int_mul_mg]
    refine Finset.sum_congr rfl fun pt1 _ => ?_
    rw [(imbalanceInner_lanes Us pieceCount pt1 _).1]
    simp
  · simp only [SCORE_ZERO_eg, zero_add, Score.int_mul_eg]
    refine Finset.sum_congr rfl fun pt1 _ => ?_
    rw [(imbalanceInner_lanes Us pieceCount pt1 _).2]
    simp

/-! ## Facts about `probe` -/

theorem toUInt8_of_byte (x : Int) (h0 : 0 ≤ x) (h1 : x < 256) : (toUInt8 x : Int) = x := by
  unfold toUInt8
  rw [Int.emod_eq_of_lt h0 h1]
  exact Int.toNat_of_nonneg h0

@[simp]
theorem recompute_key (K : Consts) (pos : Position) (e : Entry) :
    (recompute K pos e).key = pos.material_key := rfl

@[simp]
theorem recompute_factor (K : Consts) (pos : Position) (e : Entry) (c : Color) :
    (recompute K pos e).factor c = toUInt8 K.SCALE_FACTOR_NORMAL := rfl

@[simp]
theorem recompute_gamePhase (K : Consts) (pos : Position) (e : Entry) :
    (recompute K pos e).gamePhase =
      gamePhaseOf K (pos.non_pawn_material .WHITE) (pos.non_pawn_material .BLACK) := rfl

@[simp]
theorem recompute_score (K : Consts) (pos : Position) (e : Entry) :
    (recompute K pos e).score = scoreOf (pieceCountOf pos) := rfl

@[simp]
theorem recompute_rest (K : Consts) (pos : Position) (e : Entry) :
    (recompute K pos e).rest = 0 := rfl

/-- What `recompute` stores does not depend on what the slot held. -/
theorem recompute_congr (K : Consts) (pos : Position) (e e' : Entry) :
    recompute K pos e = recompute K pos e' := rfl

theorem probe_e {bits : Nat} (K : Consts) (t : Table bits) (pos : Position) :
    (Material.probe K t pos).e = slotOf bits pos.material_key := by
  unfold Material.probe
  simp only []
  split <;> rfl

theorem probe_hit_table {bits : Nat} (K : Consts) (t : Table bits) (pos : Position)
    (h : (t (slotOf bits pos.material_key)).key = pos.material_key) :
    (Material.probe K t pos).materialTable = t := by
  unfold Material.probe
  simp only [h, if_true]

theorem probe_miss_table {bits : Nat} (K : Consts) (t : Table bits) (pos : Position)
    (h : (t (slotOf bits pos.material_key)).key ≠ pos.material_key) :
    (Material.probe K t pos).materialTable =
      Function.update t (slotOf bits pos.material_key)
        (recompute K pos (t (slotOf bits pos.material_key))) := by
  unfold Material.probe
  simp only [h, if_false]

theorem probe_hit_entry {bits : Nat} (K : Consts) (t : Table bits) (pos : Position)
    (h : (t (slotOf bits pos.material_key)).key = pos.material_key) :
    (Material.probe K t pos).entry = t (slotOf bits pos.material_key) := by
  unfold Probed.entry
  rw [probe_e, probe_hit_table K t pos h]

theorem probe_miss_entry {bits : Nat} (K : Consts) (t : Table bits) (pos : Position)
    (h : (t (slotOf bits pos.material_key)).key ≠ pos.material_key) :
    (Material.probe K t pos).entry = recompute K pos (t (slotOf bits pos.material_key)) := by
  unfold Probed.entry
  rw [probe_e, probe_miss_table K t pos h]
  simp

/-- Whatever the table held, the addressed slot carries the probed key afterwards. -/
theorem probe_entry_key {bits : Nat} (K : Consts) (t : Table bits) (pos : Position) :
    (Material.probe K t pos).entry.key = pos.material_key := by
  by_cases h : (t (slotOf bits pos.material_key)).key = pos.material_key
  · rw [probe_hit_entry K t pos h, h]
  · rw [probe_miss_entry K t pos h]; rfl

theorem pieceCountOf_eq (pos : Position) (c : Color) (pt : Nat) :
    pieceCountOf pos c pt =
      [if pos.count BISHOP c > 1 then 1 else 0, pos.count PAWN c, pos.count KNIGHT c,
        pos.count BISHOP c, pos.count ROOK c, pos.count QUEEN c].getD pt 0 := rfl

/-! ## The claims -/

/-- C2: on a hit `probe` returns the addressed slot with its stored contents and
leaves the whole table as it was. -/
theorem Material.probe_hit_unchanged {bits : Nat} (K : Consts) (materialTable : Table bits)
    (pos : Position)
    (hhit : (materialTable (slotOf bits pos.material_key)).key = pos.material_key) :
    (Material.probe K materialTable pos).e = slotOf bits pos.material_key ∧
    (Material.probe K materialTable pos).entry
      = materialTable (slotOf bits pos.material_key) ∧
    (Material.probe K materialTable pos).materialTable = materialTable :=
  ⟨probe_e K materialTable pos, probe_hit_entry K materialTable pos hhit,
    probe_hit_table K materialTable pos hhit⟩

/-- A hit on `staleTable`: the instance of C2 at `samplePos`, whose key the slot
holds together with contents no probe computed. -/
theorem Material.probe_hit_unchanged_witness :
    (staleTable (slotOf 2 samplePos.material_key)).key = samplePos.material_key ∧
    (Material.probe sampleConsts staleTable samplePos).e = slotOf 2 samplePos.material_key ∧
    (Material.probe sampleConsts staleTable samplePos).entry
      = staleTable (slotOf 2 samplePos.material_key) ∧
    (Material.probe sampleConsts staleTable samplePos).materialTable = staleTable :=
  ⟨by decide, Material.probe_hit_unchanged sampleConsts staleTable samplePos (by decide)⟩

@[simp]
theorem Color.flip_flip (c : Color) : c.flip.flip = c := by
  cases c <;> rfl

/-- Exchanging the rows of `pieceCount` exchanges the two imbalances. -/
theorem imbalance_swap (Us : Color) (pieceCount : Color → Nat → Int) :
    imbalance Us (fun c => pieceCount c.flip) = imbalance Us.flip pieceCount := by
  have hb : imbalanceBody Us (fun c => pieceCount c.flip)
      = imbalanceBody Us.flip pieceCount := by
    funext bonus pt1
    simp only [imbalanceBody, imbalanceInner, Color.flip_flip]
  unfold imbalance
  rw [hb]

/-- The damped difference changes sign when the rows of `pieceCount` are exchanged. -/
theorem scoreOf_swap (pieceCount : Color → Nat → Int) :
    scoreOf (fun c => pieceCount c.flip) = -scoreOf pieceCount := by
  unfold scoreOf
  rw [imbalance_swap, imbalance_swap]
  apply Score.ext_lanes
  · simp only [Score.div_mg, Score.sub_mg, Score.neg_mg, Color.flip]
    rw [← Int.neg_tdiv, neg_sub]
  · simp only [Score.div_eg, Score.sub_eg, Score.neg_eg, Color.flip]
    rw [← Int.neg_tdiv, neg_sub]

/-- The sample position shows the truncation at work: the undivided difference 2079 is
not a multiple of 16, and the two scores are 129 and -129 in the midgame lane. -/
theorem scoreOf_mirror_sample :
    (imbalance .WHITE (pieceCountOf samplePos)
      - imbalance .BLACK (pieceCountOf samplePos)).mg = 2079 ∧
    (scoreOf (pieceCountOf samplePos)).mg = 129 ∧
    (scoreOf (pieceCountOf samplePos.mirror)).mg = -129 := by
  decide

/-- The game phase lies between 0 and `PHASE_MIDGAME` and takes the end values outside
the two limits. -/
theorem gamePhaseOf_bounds (K : Consts) (npm_w npm_b : Int)
    (hlim : K.EndgameLimit < K.MidgameLimit) (hph : 0 ≤ K.PHASE_MIDGAME) :
    0 ≤ gamePhaseOf K npm_w npm_b ∧ gamePhaseOf K npm_w npm_b ≤ K.PHASE_MIDGAME ∧
    (npm_w + npm_b ≤ K.EndgameLimit → gamePhaseOf K npm_w npm_b = 0) ∧
    (K.MidgameLimit ≤ npm_w + npm_b → gamePhaseOf K npm_w npm_b = K.PHASE_MIDGAME) := by
  have hd : 0 < K.MidgameLimit - K.EndgameLimit := by omega
  have hc0 : 0 ≤ clamp (npm_w + npm_b) K.EndgameLimit K.MidgameLimit - K.EndgameLimit := by
    unfold clamp; split_ifs <;> omega
  have hc1 : clamp (npm_w + npm_b) K.EndgameLimit K.MidgameLimit - K.EndgameLimit
      ≤ K.MidgameLimit - K.EndgameLimit := by
    unfold clamp; split_ifs <;> omega
  unfold gamePhaseOf
  simp only []
  refine ⟨?_, ?_, ?_, ?_⟩
  · exact Int.tdiv_nonneg (mul_nonneg hc0 hph) hd.le
  · rw [Int.tdiv_eq_ediv (mul_nonneg hc0 hph) hd.le]
    apply Int.ediv_le_of_le_mul hd
    rw [mul_comm K.PHASE_MIDGAME]
    exact mul_le_mul_of_nonneg_right hc1 hph
  · intro h
    have : clamp (npm_w + npm_b) K.EndgameLimit K.MidgameLimit = K.EndgameLimit := by
      unfold clamp; split_ifs <;> omega
    rw [this]; simp
  · intro h
    have : clamp (npm_w + npm_b) K.EndgameLimit K.MidgameLimit = K.MidgameLimit := by
      unfold clamp; split_ifs <;> omega
    rw [this]
    exact Int.mul_tdiv_cancel_left _ hd.ne'

/-- C5: with `EndgameLimit < MidgameLimit` and `PHASE_MIDGAME >= 0`, the game phase a
miss stores lies in `[0, PHASE_MIDGAME]` for any two non-pawn material values; it is 0
when their sum is at or below `EndgameLimit` and `PHASE_MIDGAME` when the sum is at or
above `MidgameLimit`. -/
theorem Material.probe_miss_gamePhase_bounds {bits : Nat} (K : Consts)
    (materialTable : Table bits) (pos : Position)
    (hlim : K.EndgameLimit < K.MidgameLimit) (hph : 0 ≤ K.PHASE_MIDGAME)
    (hmiss : (materialTable (slotOf bits pos.material_key)).key ≠ pos.material_key) :
    0 ≤ (Material.probe K materialTable pos).entry.gamePhase ∧
    (Material.probe K materialTable pos).entry.gamePhase ≤ K.PHASE_MIDGAME ∧
    (pos.non_pawn_material .WHITE + pos.non_pawn_material .BLACK ≤ K.EndgameLimit →
      (Material.probe K materialTable pos).entry.gamePhase = 0) ∧
    (K.MidgameLimit ≤ pos.non_pawn_material .WHITE + pos.non_pawn_material .BLACK →
      (Material.probe K materialTable pos).entry.gamePhase = K.PHASE_MIDGAME) := by
  rw [probe_miss_entry K materialTable pos hmiss, recompute_gamePhase]
  exact gamePhaseOf_bounds K _ _ hlim hph

/-- A miss on the sample table with the sample constants: the instance of C5 at
`samplePos`, whose non-pawn material lies below `EndgameLimit`. -/
theorem Material.probe_miss_gamePhase_bounds_witness :
    sampleConsts.EndgameLimit < sampleConsts.MidgameLimit ∧
    0 ≤ sampleConsts.PHASE_MIDGAME ∧
    (sampleTable (slotOf 2 samplePos.material_key)).key ≠ samplePos.material_key ∧
    0 ≤ (Material.probe sampleConsts sampleTable samplePos).entry.gamePhase ∧
    (Material.probe sampleConsts sampleTable samplePos).entry.gamePhase
      ≤ sampleConsts.PHASE_MIDGAME ∧
    (samplePos.non_pawn_material .WHITE + samplePos.non_pawn_material .BLACK
        ≤ sampleConsts.EndgameLimit →
      (Material.probe sampleConsts sampleTable samplePos).entry.gamePhase = 0) ∧
    (sampleConsts.MidgameLimit
        ≤ samplePos.non_pawn_material .WHITE + samplePos.non_pawn_material .BLACK →
      (Material.probe sampleConsts sampleTable samplePos).entry.gamePhase
        = sampleConsts.PHASE_MIDGAME) :=
  ⟨by decide, by decide, by decide,
    Material.probe_miss_gamePhase_bounds sampleConsts sampleTable samplePos
      (by decide) (by decide) (by decide)⟩

/-- The array `pieceCount` is built from the counts alone. -/
theorem pieceCountOf_congr (p1 p2 : Position)
    (h : ∀ (pt : PieceType) (c : Color), p1.count pt c = p2.count pt c) :
    pieceCountOf p1 = pieceCountOf p2 := by
  funext c pt
  simp only [pieceCountOf, h]

/-- After any call the returned slot holds the probed key, so a second call with the
same position is a hit. -/
theorem probe_table_key {bits : Nat} (K : Consts) (t : Table bits) (pos : Position) :
    ((Material.probe K t pos).materialTable (slotOf bits pos.material_key)).key
      = pos.material_key := by
  have h := probe_entry_key K t pos
  unfold Probed.entry at h
  rw [probe_e] at h
  exact h

/-- C7: when A and B have different keys that address the same slot, after
`probe(A); probe(B)` the slot holds the key of B, so the third call `probe(A)` is a
miss; it returns the entry a miss on A computes from any table: the key of A, the
neutral scale factors, the game phase and score of A, and zero elsewhere. -/
theorem Material.probe_collision_recomputes {bits : Nat} (K : Consts)
    (materialTable : Table bits) (A B : Position)
    (hkey : A.material_key ≠ B.material_key)
    (hslot : slotOf bits A.material_key = slotOf bits B.material_key) :
    ((Material.probe K (Material.probe K materialTable A).materialTable B).materialTable
        (slotOf bits A.material_key)).key ≠ A.material_key ∧
    (∀ t0 : Table bits, (t0 (slotOf bits A.material_key)).key ≠ A.material_key →
      (Material.probe K
        (Material.probe K (Material.probe K materialTable A).materialTable B).materialTable
        A).entry = (Material.probe K t0 A).entry) ∧
    (Material.probe K
      (Material.probe K (Material.probe K materialTable A).materialTable B).materialTable
      A).entry
      = { key := A.material_key
          score := scoreOf (pieceCountOf A)
          gamePhase :=
            gamePhaseOf K (A.non_pawn_material .WHITE) (A.non_pawn_material .BLACK)
          factor := fun _ => toUInt8 K.SCALE_FACTOR_NORMAL
          rest := 0 } := by
  have hB := probe_table_key K (Material.probe K materialTable A).materialTable B
  rw [← hslot] at hB
  have hmiss : ((Material.probe K (Material.probe K materialTable A).materialTable
      B).materialTable (slotOf bits A.material_key)).key ≠ A.material_key := by
    rw [hB]; exact fun h => hkey h.symm
  refine ⟨hmiss, ?_, ?_⟩
  · intro t0 h0
    rw [probe_miss_entry K _ A hmiss, probe_miss_entry K t0 A h0]
    exact recompute_congr K A _ _
  · rw [probe_miss_entry K _ A hmiss]
    rfl

/-- The instance of C7 at `samplePos` (key 5) and `samplePosB` (key 9) on a table of
four slots. -/
theorem Material.probe_collision_recomputes_witness :
    samplePos.material_key ≠ samplePosB.material_key ∧
    slotOf 2 samplePos.material_key = slotOf 2 samplePosB.material_key ∧
    ((Material.probe sampleConsts
        (Material.probe sampleConsts sampleTable samplePos).materialTable
        samplePosB).materialTable (slotOf 2 samplePos.material_key)).key
      ≠ samplePos.material_key ∧
    (Material.probe sampleConsts
      (Material.probe sampleConsts
        (Material.probe sampleConsts sampleTable samplePos).materialTable
        samplePosB).materialTable
      samplePos).entry
      = { key := 5, score := make_score 129 122, gamePhase := 0, factor := fun _ => 64,
          rest := 0 } := by
  have h := Material.probe_collision_recomputes sampleConsts sampleTable samplePos
    samplePosB (by decide) (by decide)
  refine ⟨by decide, by decide, h.1, ?_⟩
  rw [h.2.2]
  decide

/-- C8: two calls of `probe` in a row with one position return the same slot with the
same contents; the second call is a hit and leaves the table as the first call left
it. -/
theorem Material.probe_twice {bits : Nat} (K : Consts) (materialTable : Table bits)
    (pos : Position) :
    ((Material.probe K materialTable pos).materialTable
        (slotOf bits pos.material_key)).key = pos.material_key ∧
    (Material.probe K (Material.probe K materialTable pos).materialTable pos).e
      = (Material.probe K materialTable pos).e ∧
    (Material.probe K (Material.probe K materialTable pos).materialTable pos).entry
      = (Material.probe K materialTable pos).entry ∧
    (Material.probe K (Material.probe K materialTable pos).materialTable pos).materialTable
      = (Material.probe K materialTable pos).materialTable := by
  have hhit := probe_table_key K materialTable pos
  refine ⟨hhit, ?_, ?_, probe_hit_table K _ pos hhit⟩
  · rw [probe_e, probe_e]
  · rw [probe_hit_entry K _ pos hhit]
    unfold Probed.entry
    rw [probe_e]

/-- C9: `probe` leaves every slot other than the addressed one unchanged; on a hit it
leaves the whole table unchanged and on a miss it changes the addressed slot. -/
theorem Material.probe_frame {bits : Nat} (K : Consts) (materialTable : Table bits)
    (pos : Position) :
    (∀ i : Fin (2 ^ bits), i ≠ slotOf bits pos.material_key →
      (Material.probe K materialTable pos).materialTable i = materialTable i) ∧
    ((materialTable (slotOf bits pos.material_key)).key = pos.material_key →
      (Material.probe K materialTable pos).materialTable = materialTable) ∧
    ((materialTable (slotOf bits pos.material_key)).key ≠ pos.material_key →
      (Material.probe K materialTable pos).materialTable (slotOf bits pos.material_key)
        ≠ materialTable (slotOf bits pos.material_key)) := by
  refine ⟨?_, probe_hit_table K materialTable pos, ?_⟩
  · intro i hi
    by_cases h : (materialTable (slotOf bits pos.material_key)).key = pos.material_key
    · rw [probe_hit_table K materialTable pos h]
    · rw [probe_miss_table K materialTable pos h, Function.update_noteq hi]
  · intro h heq
    apply h
    rw [← heq]
    exact probe_table_key K materialTable pos

/-- The instance of C9 at `samplePos` on the zero table: slot 1 is rewritten, slots 0,
2 and 3 keep their contents. -/
theorem Material.probe_frame_witness :
    (∀ i : Fin (2 ^ 2), i ≠ slotOf 2 samplePos.material_key →
      (Material.probe sampleConsts sampleTable samplePos).materialTable i = sampleTable i) ∧
    (Material.probe sampleConsts sampleTable samplePos).materialTable 1 ≠ sampleTable 1 :=
  ⟨(Material.probe_frame sampleConsts sampleTable samplePos).1,
    (Material.probe_frame sampleConsts sampleTable samplePos).2.2 (by decide)⟩

theorem Color.flip_ne (c : Color) : c.flip ≠ c := by
  cases c <;> decide

/-- The imbalance of a side as a function of its number of bishops `k >= 2`, the
other counts being fixed. -/
theorem imbalance_withBishops (pos : Position) (c : Color) (k : Int) (hk : 2 ≤ k) :
    (imbalance c (pieceCountOf (pos.withBishops c k))).mg
      = (imbalance c (pieceCountOf (pos.withBishops c 2))).mg
        + (k - 2) * (118 * pos.count PAWN c + 10 * pos.count KNIGHT c
            + 132 * pos.count ROOK c + 161 * pos.count QUEEN c
            + 75 * (if pos.count BISHOP c.flip > 1 then 1 else 0)
            + 59 * pos.count PAWN c.flip + 60 * pos.count KNIGHT c.flip) ∧
    (imbalance c (pieceCountOf (pos.withBishops c k))).eg
      = (imbalance c (pieceCountOf (pos.withBishops c 2))).eg
        + (k - 2) * (137 * pos.count PAWN c + 27 * pos.count KNIGHT c
            + 118 * pos.count ROOK c + 105 * pos.count QUEEN c
            + 35 * (if pos.count BISHOP c.flip > 1 then 1 else 0)
            + 44 * pos.count PAWN c.flip + 15 * pos.count KNIGHT c.flip) := by
  have hk1 : 1 < k := by omega
  have hne : ¬ c.flip = c := Color.flip_ne c
  rw [(imbalance_lanes c _).1, (imbalance_lanes c _).1, (imbalance_lanes c _).2,
    (imbalance_lanes c _).2]
  simp [Finset.sum_range_succ, pieceCountOf, countRow, Position.withBishops, tableAt,
    QuadraticOurs, QuadraticTheirs, S, make_score, SCORE_ZERO, BISHOP, PAWN, KNIGHT, ROOK,
    QUEEN, hk1, hne]
  constructor <;> ring

/-- C10 as stated fails: White with three pawns and two bishops against Black with
three pawns and one bishop has imbalance (3117, 2976); with a third white bishop and
every other count unchanged the imbalance of White is (3648, 3519). -/
theorem imbalance_differs_two_three_bishops :
    (samplePos.withBishops .WHITE 2).count BISHOP .WHITE = 2 ∧
    (samplePos.withBishops .WHITE 3).count BISHOP .WHITE = 3 ∧
    (∀ (pt : PieceType) (c : Color), ¬ (pt = BISHOP ∧ c = .WHITE) →
      (samplePos.withBishops .WHITE 3).count pt c
        = (samplePos.withBishops .WHITE 2).count pt c) ∧
    imbalance .WHITE (pieceCountOf (samplePos.withBishops .WHITE 2))
      = make_score 3117 2976 ∧
    imbalance .WHITE (pieceCountOf (samplePos.withBishops .WHITE 3))
      = make_score 3648 3519 ∧
    imbalance .WHITE (pieceCountOf (samplePos.withBishops .WHITE 2))
      ≠ imbalance .WHITE (pieceCountOf (samplePos.withBishops .WHITE 3)) := by
  refine ⟨by decide, by decide, ?_, by decide, by decide, by decide⟩
  intro pt c h
  simp only [Position.withBishops, h, if_false]

/-- C10, amended: for a side with `k >= 2` bishops the bishop-pair marker is 1, as it
is for two bishops, but the number of bishops is a count of its own in the polynomial:
the imbalance of the side with `k` bishops is its imbalance with two bishops plus
`k - 2` times a weight of the other counts, (118, 137) per own pawn, (10, 27) per own
knight, (132, 118) per own rook, (161, 105) per own queen, (75, 35) for the bishop
pair of the opponent, (59, 44) per pawn and (60, 15) per knight of the opponent. -/
theorem imbalance_bishops_beyond_two (pos : Position) (c : Color) (k : Int)
    (hk : 2 ≤ k) :
    pieceCountOf (pos.withBishops c k) c NO_PIECE_TYPE = 1 ∧
    pieceCountOf (pos.withBishops c 2) c NO_PIECE_TYPE = 1 ∧
    pieceCountOf (pos.withBishops c k) c BISHOP = k ∧
    (imbalance c (pieceCountOf (pos.withBishops c k))).mg
      = (imbalance c (pieceCountOf (pos.withBishops c 2))).mg
        + (k - 2) * (118 * pos.count PAWN c + 10 * pos.count KNIGHT c
            + 132 * pos.count ROOK c + 161 * pos.count QUEEN c
            + 75 * (if pos.count BISHOP c.flip > 1 then 1 else 0)
            + 59 * pos.count PAWN c.flip + 60 * pos.count KNIGHT c.flip) ∧
    (imbalance c (pieceCountOf (pos.withBishops c k))).eg
      = (imbalance c (pieceCountOf (pos.withBishops c 2))).eg
        + (k - 2) * (137 * pos.count PAWN c + 27 * pos.count KNIGHT c
            + 118 * pos.count ROOK c + 105 * pos.count QUEEN c
            + 35 * (if pos.count BISHOP c.flip > 1 then 1 else 0)
            + 44 * pos.count PAWN c.flip + 15 * pos.count KNIGHT c.flip) := by
  have hk1 : 1 < k := by omega
  refine ⟨?_, ?_, ?_, imbalance_withBishops pos c k hk⟩
  · simp [pieceCountOf, countRow, Position.withBishops, NO_PIECE_TYPE, hk1]
  · simp [pieceCountOf, countRow, Position.withBishops, NO_PIECE_TYPE]
  · simp [pieceCountOf, countRow, Position.withBishops, BISHOP]

/-- The amended C10 at `samplePos` with three white bishops: the midgame lane grows by
`118 * 3 + 59 * 3 = 531` and the endgame lane by `137 * 3 + 44 * 3 = 543`. -/
theorem imbalance_bishops_beyond_two_witness :
    (2 : Int) ≤ 3 ∧
    (imbalance .WHITE (pieceCountOf (samplePos.withBishops .WHITE 3))).mg
      = (imbalance .WHITE (pieceCountOf (samplePos.withBishops .WHITE 2))).mg + 531 ∧
    (imbalance .WHITE (pieceCountOf (samplePos.withBishops .WHITE 3))).eg
      = (imbalance .WHITE (pieceCountOf (samplePos.withBishops .WHITE 2))).eg + 543 := by
  have h := imbalance_bishops_beyond_two samplePos .WHITE 3 (by decide)
  refine ⟨by decide, ?_, ?_⟩
  · rw [h.2.2.2.1]; decide
  · rw [h.2.2.2.2]; decide

/-! ## The bishop pair and symmetric configurations -/

/-- On a miss the stored score is `scoreOf` of the array `pieceCount`. -/
theorem probe_miss_score {bits : Nat} (K : Consts) (t : Table bits) (pos : Position)
    (h : (t (slotOf bits pos.material_key)).key ≠ pos.material_key) :
    (Material.probe K t pos).entry.score = scoreOf (pieceCountOf pos) := by
  rw [probe_miss_entry K t pos h]; rfl

/-- The inner loop for the place holder of the bishop pair has no pass. -/
theorem imbalanceInner_zero (Us : Color) (pieceCount : Color → Nat → Int) (v0 : Score) :
    imbalanceInner Us pieceCount NO_PIECE_TYPE v0 = v0 := by
  simp [imbalanceInner, NO_PIECE_TYPE]

/-- The outer loop, its first pass taken apart. -/
theorem imbalance_first_pass (Us : Color) (pieceCount : Color → Nat → Int) :
    imbalance Us pieceCount =
      (List.range' PAWN (QUEEN + 1 - PAWN)).foldl (imbalanceBody Us pieceCount)
        (imbalanceBody Us pieceCount SCORE_ZERO NO_PIECE_TYPE) := by
  simp [imbalance, NO_PIECE_TYPE, QUEEN, PAWN, List.range']

/-- The first pass with the marker set adds the diagonal entry once. -/
theorem imbalanceBody_marker (Us : Color) (pieceCount : Color → Nat → Int) (bonus : Score)
    (h : pieceCount Us NO_PIECE_TYPE = 1) :
    imbalanceBody Us pieceCount bonus NO_PIECE_TYPE =
      bonus + (1 : Int) * tableAt QuadraticOurs NO_PIECE_TYPE NO_PIECE_TYPE := by
  rw [imbalanceBody_eq, imbalanceInner_zero, h]
  apply Score.ext_lanes <;> simp

/-- C11: the first element of a side's count vector is 1 when the side has more than
one bishop and 0 otherwise, never more; with `k >= 2` bishops the pass of the loop for
the bishop pair adds `QuadraticOurs[BishopPair][BishopPair] = (1419, 1455)` with
coefficient 1, whatever `k` is, and no later pass reads that entry again. -/
theorem pieceCount_marker_saturates (pos : Position) (c : Color) (bonus : Score) :
    pieceCountOf pos c NO_PIECE_TYPE = (if pos.count BISHOP c > 1 then 1 else 0) ∧
    (pieceCountOf pos c NO_PIECE_TYPE = 0 ∨ pieceCountOf pos c NO_PIECE_TYPE = 1) ∧
    (2 ≤ pos.count BISHOP c →
      pieceCountOf pos c NO_PIECE_TYPE = 1 ∧
      imbalanceBody c (pieceCountOf pos) bonus NO_PIECE_TYPE
        = bonus + (1 : Int) * tableAt QuadraticOurs NO_PIECE_TYPE NO_PIECE_TYPE ∧
      tableAt QuadraticOurs NO_PIECE_TYPE NO_PIECE_TYPE = make_score 1419 1455 ∧
      imbalance c (pieceCountOf pos)
        = (List.range' PAWN (QUEEN + 1 - PAWN)).foldl (imbalanceBody c (pieceCountOf pos))
            (SCORE_ZERO + (1 : Int) * make_score 1419 1455)) := by
  have h0 : pieceCountOf pos c NO_PIECE_TYPE = (if pos.count BISHOP c > 1 then 1 else 0) := rfl
  refine ⟨h0, ?_, ?_⟩
  · rw [h0]; split <;> simp
  · intro hk
    have h1 : pieceCountOf pos c NO_PIECE_TYPE = 1 := by
      rw [h0, if_pos (by omega)]
    have hq : tableAt QuadraticOurs NO_PIECE_TYPE NO_PIECE_TYPE = make_score 1419 1455 := rfl
    refine ⟨h1, imbalanceBody_marker c _ bonus h1, hq, ?_⟩
    rw [imbalance_first_pass, imbalanceBody_marker c _ SCORE_ZERO h1, hq]

/-- The instance of C11 for White with three bishops. -/
theorem pieceCount_marker_saturates_witness :
    (2 : Int) ≤ (samplePos.withBishops .WHITE 3).count BISHOP .WHITE ∧
    pieceCountOf (samplePos.withBishops .WHITE 3) .WHITE NO_PIECE_TYPE = 1 ∧
    imbalanceBody .WHITE (pieceCountOf (samplePos.withBishops .WHITE 3)) SCORE_ZERO
        NO_PIECE_TYPE
      = SCORE_ZERO + (1 : Int) * tableAt QuadraticOurs NO_PIECE_TYPE NO_PIECE_TYPE :=
  ⟨by decide,
    ((pieceCount_marker_saturates (samplePos.withBishops .WHITE 3) .WHITE
      SCORE_ZERO).2.2 (by decide)).1,
    ((pieceCount_marker_saturates (samplePos.withBishops .WHITE 3) .WHITE
      SCORE_ZERO).2.2 (by decide)).2.1⟩

/-- When both rows of `pieceCount` are equal the two imbalances are equal and the
score is zero. -/
theorem scoreOf_symmetric (pieceCount : Color → Nat → Int)
    (h : pieceCount .WHITE = pieceCount .BLACK) : scoreOf pieceCount = SCORE_ZERO := by
  have hs : (fun c : Color => pieceCount c.flip) = pieceCount := by
    funext c; cases c
    · exact h.symm
    · exact h
  have hi : imbalance .WHITE pieceCount = imbalance .BLACK pieceCount := by
    have := imbalance_swap .WHITE pieceCount
    rw [hs] at this
    exact this
  unfold scoreOf
  rw [hi]
  apply Score.ext_lanes <;> simp

/-- C12: when White and Black have identical counts of every piece type, the score a
miss computes is (0, 0). -/
theorem Material.probe_miss_symmetric_score {bits : Nat} (K : Consts)
    (materialTable : Table bits) (pos : Position)
    (hsym : ∀ pt : PieceType, pos.count pt .WHITE = pos.count pt .BLACK)
    (hmiss : (materialTable (slotOf bits pos.material_key)).key ≠ pos.material_key) :
    (Material.probe K materialTable pos).entry.score.mg = 0 ∧
    (Material.probe K materialTable pos).entry.score.eg = 0 ∧
    (imbalance .WHITE (pieceCountOf pos) - imbalance .BLACK (pieceCountOf pos)) / (16 : Int)
      = make_score 0 0 := by
  have hrow : pieceCountOf pos .WHITE = pieceCountOf pos .BLACK := by
    funext pt
    simp only [pieceCountOf, hsym]
  have hz := scoreOf_symmetric (pieceCountOf pos) hrow
  rw [probe_miss_score K materialTable pos hmiss, hz]
  exact ⟨rfl, rfl, hz⟩

/-- The instance of C12 at the starting position (eight pawns, two knights, two
bishops, two rooks and a queen each) on the zero table. -/
theorem Material.probe_miss_symmetric_score_witness :
    (∀ pt : PieceType, startPos.count pt .WHITE = startPos.count pt .BLACK) ∧
    (sampleTable (slotOf 2 startPos.material_key)).key ≠ startPos.material_key ∧
    (Material.probe sampleConsts sampleTable startPos).entry.score.mg = 0 ∧
    (Material.probe sampleConsts sampleTable startPos).entry.score.eg = 0 :=
  ⟨fun _ => rfl, by decide,
    (Material.probe_miss_symmetric_score sampleConsts sampleTable startPos
      (fun _ => rfl) (by decide)).1,
    (Material.probe_miss_symmetric_score sampleConsts sampleTable startPos
      (fun _ => rfl) (by decide)).2.1⟩

/-! ## Two bishops against one -/

/-- The truncated quotient by 16 is positive exactly from 16 on. -/
theorem tdiv16_pos_iff (x : Int) : 0 < Int.tdiv x 16 ↔ 16 ≤ x := by
  by_cases hx : 0 ≤ x
  · rw [Int.tdiv_eq_ediv hx (by decide)]
    omega
  · have hneg : Int.tdiv x 16 ≤ 0 := by
      have h1 : x = -(-x) := by omega
      have h2 : 0 ≤ Int.tdiv (-x) 16 := Int.tdiv_nonneg (by omega) (by decide)
      rw [h1, Int.neg_tdiv]
      omega
    constructor <;> intro h <;> omega

/-- The midgame lane of the score when White has two bishops, Black one, and the
other counts agree: the undivided difference is linear in the common counts. -/
theorem scoreOf_two_one_bishops_mg (pos : Position)
    (hW : pos.count BISHOP .WHITE = 2) (hB : pos.count BISHOP .BLACK = 1)
    (hp : pos.count PAWN .WHITE = pos.count PAWN .BLACK)
    (hn : pos.count KNIGHT .WHITE = pos.count KNIGHT .BLACK)
    (hr : pos.count ROOK .WHITE = pos.count ROOK .BLACK)
    (hq : pos.count QUEEN .WHITE = pos.count QUEEN .BLACK) :
    (scoreOf (pieceCountOf pos)).mg =
      Int.tdiv (1344 + 245 * pos.count PAWN .BLACK + 81 * pos.count KNIGHT .BLACK
        + 55 * pos.count ROOK .BLACK - 258 * pos.count QUEEN .BLACK) 16 := by
  unfold scoreOf
  rw [Score.div_mg, Score.sub_mg, (imbalance_lanes .WHITE _).1, (imbalance_lanes .BLACK _).1]
  simp only [BISHOP, PAWN, KNIGHT, ROOK, QUEEN] at hW hB hp hn hr hq
  congr 1
  simp [Finset.sum_range_succ, pieceCountOf, countRow, tableAt,
    QuadraticOurs, QuadraticTheirs, S, make_score, SCORE_ZERO, BISHOP, PAWN, KNIGHT, ROOK,
    QUEEN, Color.flip, hW, hB, hp, hn, hr, hq]
  ring

/-- C13 as stated fails: White with two bishops and six queens against Black with
one bishop and six queens, the other counts being zero on both sides; the undivided
difference of the imbalances is -204 in the midgame lane and the score is -12. -/
theorem scoreOf_bishop_pair_six_queens :
    sixQueensPos.count BISHOP .WHITE = 2 ∧ sixQueensPos.count BISHOP .BLACK = 1 ∧
    (∀ pt : PieceType, pt ≠ BISHOP →
      sixQueensPos.count pt .WHITE = sixQueensPos.count pt .BLACK) ∧
    pieceCountOf sixQueensPos .WHITE NO_PIECE_TYPE = 1 ∧
    pieceCountOf sixQueensPos .BLACK NO_PIECE_TYPE = 0 ∧
    (sampleTable (slotOf 2 sixQueensPos.material_key)).key ≠ sixQueensPos.material_key ∧
    (imbalance .WHITE (pieceCountOf sixQueensPos)
      - imbalance .BLACK (pieceCountOf sixQueensPos)).mg = -204 ∧
    (Material.probe sampleConsts sampleTable sixQueensPos).entry.score.mg = -12 ∧
    ¬ 0 < (Material.probe sampleConsts sampleTable sixQueensPos).entry.score.mg := by
  refine ⟨by decide, by decide, ?_, by decide, by decide, by decide, by decide, by decide,
    by decide⟩
  intro pt h
  simp only [sixQueensPos, h, if_false]

/-- C13, amended: when White has two bishops and Black one, and the counts of pawns
`p`, knights `n`, rooks `r` and queens `q` agree between the sides, the midgame lane of
the score a miss computes is `(1344 + 245 p + 81 n + 55 r - 258 q) / 16`, truncated;
it is strictly positive exactly when `1344 + 245 p + 81 n + 55 r - 258 q >= 16`, which
holds whenever the counts are not negative and there are at most five queens a side. -/
theorem Material.probe_miss_bishop_pair_mg {bits : Nat} (K : Consts)
    (materialTable : Table bits) (pos : Position)
    (hW : pos.count BISHOP .WHITE = 2) (hB : pos.count BISHOP .BLACK = 1)
    (heq : pos.count PAWN .WHITE = pos.count PAWN .BLACK ∧
      pos.count KNIGHT .WHITE = pos.count KNIGHT .BLACK ∧
      pos.count ROOK .WHITE = pos.count ROOK .BLACK ∧
      pos.count QUEEN .WHITE = pos.count QUEEN .BLACK)
    (hmiss : (materialTable (slotOf bits pos.material_key)).key ≠ pos.material_key) :
    (Material.probe K materialTable pos).entry.score.mg
      = Int.tdiv (1344 + 245 * pos.count PAWN .BLACK + 81 * pos.count KNIGHT .BLACK
          + 55 * pos.count ROOK .BLACK - 258 * pos.count QUEEN .BLACK) 16 ∧
    (0 < (Material.probe K materialTable pos).entry.score.mg ↔
      16 ≤ 1344 + 245 * pos.count PAWN .BLACK + 81 * pos.count KNIGHT .BLACK
          + 55 * pos.count ROOK .BLACK - 258 * pos.count QUEEN .BLACK) ∧
    (0 ≤ pos.count PAWN .BLACK ∧ 0 ≤ pos.count KNIGHT .BLACK ∧ 0 ≤ pos.count ROOK .BLACK ∧
        pos.count QUEEN .BLACK ≤ 5 →
      0 < (Material.probe K materialTable pos).entry.score.mg) := by
  have hmg := scoreOf_two_one_bishops_mg pos hW hB heq.1 heq.2.1 heq.2.2.1 heq.2.2.2
  rw [probe_miss_score K materialTable pos hmiss, hmg]
  refine ⟨rfl, tdiv16_pos_iff _, ?_⟩
  intro h
  rw [tdiv16_pos_iff]
  omega

/-- The amended C13 at `samplePos` with a second white bishop and three pawns a side:
the midgame lane is `(1344 + 245 * 3) / 16 = 129`. -/
theorem Material.probe_miss_bishop_pair_mg_witness :
    samplePos.count BISHOP .WHITE = 2 ∧ samplePos.count BISHOP .BLACK = 1 ∧
    (sampleTable (slotOf 2 samplePos.material_key)).key ≠ samplePos.material_key ∧
    (Material.probe sampleConsts sampleTable samplePos).entry.score.mg = 129 ∧
    0 < (Material.probe sampleConsts sampleTable samplePos).entry.score.mg := by
  have h := Material.probe_miss_bishop_pair_mg sampleConsts sampleTable samplePos
    (by decide) (by decide) (by decide) (by decide)
  refine ⟨by decide, by decide, by decide, ?_, h.2.2 (by decide)⟩
  rw [h.1]
  decide

/-- C14: for the starting configuration with one black bishop removed (White: eight
pawns, two knights, two bishops, two rooks, a queen; Black: the same with one bishop)
the midgame lane of the score a miss computes is 207, strictly positive. -/
theorem Material.probe_miss_start_minus_bishop {bits : Nat} (K : Consts)
    (materialTable : Table bits) (pos : Position)
    (hW : pos.count BISHOP .WHITE = 2) (hB : pos.count BISHOP .BLACK = 1)
    (hp : ∀ c : Color, pos.count PAWN c = 8) (hn : ∀ c : Color, pos.count KNIGHT c = 2)
    (hr : ∀ c : Color, pos.count ROOK c = 2) (hq : ∀ c : Color, pos.count QUEEN c = 1)
    (hmiss : (materialTable (slotOf bits pos.material_key)).key ≠ pos.material_key) :
    pieceCountOf pos .WHITE NO_PIECE_TYPE = 1 ∧
    pieceCountOf pos .BLACK NO_PIECE_TYPE = 0 ∧
    (Material.probe K materialTable pos).entry.score.mg = 207 ∧
    0 < (Material.probe K materialTable pos).entry.score.mg := by
  have hmg := scoreOf_two_one_bishops_mg pos hW hB
    (by rw [hp, hp]) (by rw [hn, hn]) (by rw [hr, hr]) (by rw [hq, hq])
  rw [hp, hn, hr, hq] at hmg
  have h207 : (Material.probe K materialTable pos).entry.score.mg = 207 := by
    rw [probe_miss_score K materialTable pos hmiss, hmg]
    decide
  refine ⟨?_, ?_, h207, by rw [h207]; decide⟩
  · simp [pieceCountOf, countRow, NO_PIECE_TYPE, hW]
  · simp [pieceCountOf, countRow, NO_PIECE_TYPE, hB]

/-- The instance of C14 at the starting position with one black bishop removed, on
the zero table. -/
theorem Material.probe_miss_start_minus_bishop_witness :
    (startPos.withBishops .BLACK 1).count BISHOP .WHITE = 2 ∧
    (startPos.withBishops .BLACK 1).count BISHOP .BLACK = 1 ∧
    (∀ c : Color, (startPos.withBishops .BLACK 1).count PAWN c = 8) ∧
    (sampleTable (slotOf 2 (startPos.withBishops .BLACK 1).material_key)).key
      ≠ (startPos.withBishops .BLACK 1).material_key ∧
    (Material.probe sampleConsts sampleTable (startPos.withBishops .BLACK 1)).entry.score.mg
      = 207 :=
  ⟨by decide, by decide, by decide, by decide,
    (Material.probe_miss_start_minus_bishop sampleConsts sampleTable
      (startPos.withBishops .BLACK 1) (by decide) (by decide) (by decide) (by decide)
      (by decide) (by decide) (by decide)).2.2.1⟩

/-! ## The endgame functions, the reads of the tables and the `continue` -/

/-- C15: the file declares exactly five arrays of endgame functions, `KXK` as an
evaluator and `KBPsK`, `KQKRPs`, `KPsK`, `KPKP` as scalers; each array holds exactly
two instances, and the instance at the index of a colour is the one constructed with
that colour as strong side. -/
theorem endgameArrays_two_per_code :
    endgameArrays.length = 5 ∧
    (endgameArrays.map fun a => (a.1, a.2.1))
      = [(.KXK, .evaluate), (.KBPsK, .scale), (.KQKRPs, .scale), (.KPsK, .scale),
          (.KPKP, .scale)] ∧
    (endgameArrays.map fun a => a.1).Nodup ∧
    (∀ a ∈ endgameArrays, a.2.2.length = 2 ∧ ∀ c : Color, a.2.2[c.index]? = some c) ∧
    (∀ c : Color, EvaluateKXK[c.index]? = some ⟨c⟩) ∧
    (∀ c : Color, ScaleKBPsK[c.index]? = some ⟨c⟩) ∧
    (∀ c : Color, ScaleKQKRPs[c.index]? = some ⟨c⟩) ∧
    (∀ c : Color, ScaleKPsK[c.index]? = some ⟨c⟩) ∧
    (∀ c : Color, ScaleKPKP[c.index]? = some ⟨c⟩) ∧
    Color.index .WHITE = 0 ∧ Color.index .BLACK = 1 := by
  decide

/-- A left fold keeps what every step keeps. -/
theorem foldl_preserves {α β : Type} (P : β → Prop) (f : β → α → β) (l : List α) (s0 : β)
    (h0 : P s0) (hstep : ∀ s a, a ∈ l → P s → P (f s a)) : P (l.foldl f s0) := by
  induction l generalizing s0 with
  | nil => exact h0
  | cons a l ih =>
    rw [List.foldl_cons]
    apply ih
    · exact hstep s0 a (List.mem_cons_self a l) h0
    · intro s b hb hs
      exact hstep s b (List.mem_cons_of_mem a hb) hs

/-- A fold over pairs whose first component follows `f` computes the fold of `f`. -/
theorem foldl_fst {α β γ : Type} (f : β → α → β) (g : β × γ → α → β × γ) (l : List α)
    (s0 : β × γ) (h : ∀ s a, (g s a).1 = f s.1 a) : (l.foldl g s0).1 = l.foldl f s0.1 := by
  induction l generalizing s0 with
  | nil => rfl
  | cons a l ih => rw [List.foldl_cons, List.foldl_cons, ih, h]

/-- The inner loop with the log computes what the inner loop computes. -/
theorem imbalanceInnerTraced_fst (Us : Color) (pieceCount : Color → Nat → Int) (pt1 : Nat)
    (s0 : Score × List Read) :
    (imbalanceInnerTraced Us pieceCount pt1 s0).1 = imbalanceInner Us pieceCount pt1 s0.1 := by
  unfold imbalanceInnerTraced imbalanceInner
  exact foldl_fst _ _ _ s0 (fun _ _ => rfl)

/-- The loop with the log computes `imbalance`. -/
theorem imbalanceTraced_fst (Us : Color) (pieceCount : Color → Nat → Int) :
    (imbalanceTraced Us pieceCount).1 = imbalance Us pieceCount := by
  unfold imbalanceTraced imbalance
  refine foldl_fst _ _ _ (SCORE_ZERO, []) ?_
  intro s pt1
  unfold imbalanceBodyTraced imbalanceBody
  split
  · rfl
  · simp only []
    rw [imbalanceInnerTraced_fst]

/-- The inner loop logs only reads in the lower triangle of the tables. -/
theorem inner_reads_in_triangle (Us : Color) (pieceCount : Color → Nat → Int) (pt1 : Nat)
    (hpt1 : pt1 ≤ QUEEN) (s0 : Score × List Read)
    (h0 : ∀ r ∈ s0.2, (r.tbl = .Ours → r.pt2 ≤ r.pt1 ∧ r.pt1 ≤ QUEEN) ∧
      (r.tbl = .Theirs → r.pt2 < r.pt1 ∧ r.pt1 ≤ QUEEN)) :
    ∀ r ∈ (imbalanceInnerTraced Us pieceCount pt1 s0).2,
      (r.tbl = .Ours → r.pt2 ≤ r.pt1 ∧ r.pt1 ≤ QUEEN) ∧
      (r.tbl = .Theirs → r.pt2 < r.pt1 ∧ r.pt1 ≤ QUEEN) := by
  unfold imbalanceInnerTraced
  refine foldl_preserves
    (fun s : Score × List Read => ∀ r ∈ s.2,
      (r.tbl = .Ours → r.pt2 ≤ r.pt1 ∧ r.pt1 ≤ QUEEN) ∧
      (r.tbl = .Theirs → r.pt2 < r.pt1 ∧ r.pt1 ≤ QUEEN)) _ _ s0 h0 ?_
  intro s pt2 hpt2 hs r hr
  have hlt : pt2 < pt1 := by
    have := List.mem_range'_1.mp hpt2
    simp only [NO_PIECE_TYPE] at this
    omega
  simp only [List.mem_append, List.mem_cons, List.mem_singleton, List.not_mem_nil,
    or_false] at hr
  rcases hr with hr | hr | hr
  · exact hs r hr
  · subst hr
    exact ⟨fun _ => ⟨hlt.le, hpt1⟩, fun h => by cases h⟩
  · subst hr
    exact ⟨(fun h => by cases h), fun _ => ⟨hlt, hpt1⟩⟩

/-- Every read `imbalance` makes lies in the lower triangle of its table. -/
theorem reads_in_triangle (Us : Color) (pieceCount : Color → Nat → Int) :
    ∀ r ∈ (imbalanceTraced Us pieceCount).2,
      (r.tbl = .Ours → r.pt2 ≤ r.pt1 ∧ r.pt1 ≤ QUEEN) ∧
      (r.tbl = .Theirs → r.pt2 < r.pt1 ∧ r.pt1 ≤ QUEEN) := by
  unfold imbalanceTraced
  refine foldl_preserves
    (fun s : Score × List Read => ∀ r ∈ s.2,
      (r.tbl = .Ours → r.pt2 ≤ r.pt1 ∧ r.pt1 ≤ QUEEN) ∧
      (r.tbl = .Theirs → r.pt2 < r.pt1 ∧ r.pt1 ≤ QUEEN)) _ _ (SCORE_ZERO, [])
    (fun r hr => by cases hr) ?_
  intro s pt1 hpt1 hs
  have hle : pt1 ≤ QUEEN := by
    have := List.mem_range'_1.mp hpt1
    simp only [NO_PIECE_TYPE, QUEEN] at this ⊢
    omega
  unfold imbalanceBodyTraced
  split
  · exact hs
  · simp only []
    apply inner_reads_in_triangle Us pieceCount pt1 hle
    intro r hr
    simp only [List.mem_append, List.mem_singleton] at hr
    rcases hr with hr | hr
    · exact hs r hr
    · subst hr
      exact ⟨fun _ => ⟨le_refl _, hle⟩, fun h => by cases h⟩

/-- The rows of the two tables as the initialisers write them. -/
theorem rows_written (pt1 : Nat) (h : pt1 ≤ QUEEN) :
    rowWritten QuadraticOurs pt1 = pt1 + 1 ∧ rowWritten QuadraticTheirs pt1 = pt1 := by
  simp only [QUEEN] at h
  interval_cases pt1 <;> exact ⟨rfl, rfl⟩

/-- C16: every read `imbalance` makes of `QuadraticOurs` is at `[pt1][pt2]` with
`pt2 <= pt1 <= QUEEN` and every read of `QuadraticTheirs` at `[pt1][pt2]` with
`pt2 < pt1 <= QUEEN`; row `pt1` of `QuadraticOurs` has `pt1 + 1` written entries and
row `pt1` of `QuadraticTheirs` has `pt1`, so every read is of a row the initialiser
lists and of an entry it writes. -/
theorem imbalance_reads_written (Us : Color) (pieceCount : Color → Nat → Int) :
    (imbalanceTraced Us pieceCount).1 = imbalance Us pieceCount ∧
    (∀ r ∈ (imbalanceTraced Us pieceCount).2,
      (r.tbl = .Ours → r.pt2 ≤ r.pt1 ∧ r.pt1 ≤ QUEEN) ∧
      (r.tbl = .Theirs → r.pt2 < r.pt1 ∧ r.pt1 ≤ QUEEN) ∧
      r.pt1 < r.tbl.table.length ∧ r.pt2 < rowWritten r.tbl.table r.pt1) ∧
    (∀ pt1 : Nat, pt1 ≤ QUEEN →
      rowWritten QuadraticOurs pt1 = pt1 + 1 ∧ rowWritten QuadraticTheirs pt1 = pt1) ∧
    QuadraticOurs.length = QUEEN + 1 ∧ QuadraticTheirs.length = QUEEN + 1 := by
  refine ⟨imbalanceTraced_fst Us pieceCount, ?_, rows_written, rfl, rfl⟩
  intro r hr
  obtain ⟨hO, hT⟩ := reads_in_triangle Us pieceCount r hr
  refine ⟨hO, hT, ?_⟩
  obtain ⟨tbl, pt1, pt2⟩ := r
  cases tbl
  · obtain ⟨h1, h2⟩ := hO rfl
    simp only at h1 h2
    have hrow := (rows_written pt1 h2).1
    have hlen : QuadraticOurs.length = 6 := rfl
    simp only [TableId.table, hrow, hlen, QUEEN] at h2 ⊢
    omega
  · obtain ⟨h1, h2⟩ := hT rfl
    simp only at h1 h2
    have hrow := (rows_written pt1 h2).2
    have hlen : QuadraticTheirs.length = 6 := rfl
    simp only [TableId.table, hrow, hlen, QUEEN] at h2 ⊢
    omega

/-- The reads logged for White at `samplePos` (bishop pair, three pawns, two
bishops): the instance of C16 read off the log. -/
theorem imbalance_reads_written_witness :
    (imbalanceTraced .WHITE (pieceCountOf samplePos)).2.length = 11 ∧
    (⟨.Theirs, 3, 2⟩ : Read) ∈ (imbalanceTraced .WHITE (pieceCountOf samplePos)).2 ∧
    (2 < 3 ∧ 3 ≤ QUEEN) ∧ 2 < rowWritten QuadraticTheirs 3 := by
  have h := (imbalance_reads_written .WHITE (pieceCountOf samplePos)).2.1 ⟨.Theirs, 3, 2⟩
    (by decide)
  exact ⟨by decide, by decide, h.2.1 rfl, h.2.2.2⟩

/-- C17: the early `continue` of `imbalance` changes nothing: the loop that skips
every `pt1` whose count is zero returns what the loop that never skips returns, as a
skipped piece type would add `pieceCount[Us][pt1] * v = 0`. -/
theorem imbalance_eq_noSkip (Us : Color) (pieceCount : Color → Nat → Int) :
    imbalance Us pieceCount = imbalanceNoSkip Us pieceCount ∧
    (∀ (bonus : Score) (pt1 : Nat), pieceCount Us pt1 = 0 →
      bonus + pieceCount Us pt1 * imbalanceInner Us pieceCount pt1
        (tableAt QuadraticOurs pt1 pt1 * pieceCount Us pt1) = bonus) := by
  constructor
  · have hb : imbalanceBody Us pieceCount = fun bonus pt1 =>
        bonus + pieceCount Us pt1 * imbalanceInner Us pieceCount pt1
          (tableAt QuadraticOurs pt1 pt1 * pieceCount Us pt1) := by
      funext bonus pt1
      exact imbalanceBody_eq Us pieceCount bonus pt1
    unfold imbalance imbalanceNoSkip
    rw [hb]
  · intro bonus pt1 h
    apply Score.ext_lanes <;> simp [h]

/-! ## The game phase as a function of the material, and the zero key -/

/-- The game phase does not decrease when the sum of the non-pawn material grows. -/
theorem gamePhaseOf_mono (K : Consts) (w1 b1 w2 b2 : Int)
    (hlim : K.EndgameLimit < K.MidgameLimit) (hph : 0 ≤ K.PHASE_MIDGAME)
    (h : w1 + b1 ≤ w2 + b2) : gamePhaseOf K w1 b1 ≤ gamePhaseOf K w2 b2 := by
  have hd : 0 < K.MidgameLimit - K.EndgameLimit := by omega
  have hc : clamp (w1 + b1) K.EndgameLimit K.MidgameLimit
      ≤ clamp (w2 + b2) K.EndgameLimit K.MidgameLimit := by
    unfold clamp; split_ifs <;> omega
  have h1 : 0 ≤ clamp (w1 + b1) K.EndgameLimit K.MidgameLimit - K.EndgameLimit := by
    unfold clamp; split_ifs <;> omega
  have h2 : 0 ≤ clamp (w2 + b2) K.EndgameLimit K.MidgameLimit - K.EndgameLimit := by
    unfold clamp; split_ifs <;> omega
  unfold gamePhaseOf
  simp only []
  rw [Int.tdiv_eq_ediv (mul_nonneg h1 hph) hd.le, Int.tdiv_eq_ediv (mul_nonneg h2 hph) hd.le]
  apply Int.ediv_le_ediv hd
  apply mul_le_mul_of_nonneg_right _ hph
  omega

/-- C18: with `EndgameLimit < MidgameLimit` and `PHASE_MIDGAME >= 0`, the game phase a
miss stores is monotone in the total non-pawn material: a position whose sum of white
and black non-pawn material is not larger gets a game phase that is not larger. -/
theorem Material.probe_miss_gamePhase_mono {b1 b2 : Nat} (K : Consts) (t1 : Table b1)
    (t2 : Table b2) (p1 p2 : Position)
    (hlim : K.EndgameLimit < K.MidgameLimit) (hph : 0 ≤ K.PHASE_MIDGAME)
    (hmiss1 : (t1 (slotOf b1 p1.material_key)).key ≠ p1.material_key)
    (hmiss2 : (t2 (slotOf b2 p2.material_key)).key ≠ p2.material_key)
    (hle : p1.non_pawn_material .WHITE + p1.non_pawn_material .BLACK
      ≤ p2.non_pawn_material .WHITE + p2.non_pawn_material .BLACK) :
    (Material.probe K t1 p1).entry.gamePhase ≤ (Material.probe K t2 p2).entry.gamePhase := by
  rw [probe_miss_entry K t1 p1 hmiss1, probe_miss_entry K t2 p2 hmiss2,
    recompute_gamePhase, recompute_gamePhase]
  exact gamePhaseOf_mono K _ _ _ _ hlim hph hle

/-- The instance of C18 at `samplePos` (material 2475, phase 0) and `samplePosHeavy`
(material 10180, phase 70). -/
theorem Material.probe_miss_gamePhase_mono_witness :
    sampleConsts.EndgameLimit < sampleConsts.MidgameLimit ∧
    0 ≤ sampleConsts.PHASE_MIDGAME ∧
    (sampleTable (slotOf 2 samplePos.material_key)).key ≠ samplePos.material_key ∧
    (sampleTable (slotOf 2 samplePosHeavy.material_key)).key
      ≠ samplePosHeavy.material_key ∧
    samplePos.non_pawn_material .WHITE + samplePos.non_pawn_material .BLACK
      ≤ samplePosHeavy.non_pawn_material .WHITE + samplePosHeavy.non_pawn_material .BLACK ∧
    (Material.probe sampleConsts sampleTable samplePosHeavy).entry.gamePhase = 70 ∧
    (Material.probe sampleConsts sampleTable samplePos).entry.gamePhase
      ≤ (Material.probe sampleConsts sampleTable samplePosHeavy).entry.gamePhase :=
  ⟨by decide, by decide, by decide, by decide, by decide, by decide,
    Material.probe_miss_gamePhase_mono sampleConsts sampleTable sampleTable samplePos
      samplePosHeavy (by decide) (by decide) (by decide) (by decide) (by decide)⟩

/-- C19: the hit test compares keys only: when the addressed slot is all zero and the
key of the position is 0, `probe` reports a hit, leaves the table as it is and returns
the all-zero entry; its scale factors are 0, not `SCALE_FACTOR_NORMAL`, and its game
phase and score are 0 whatever the material of the position is. -/
theorem Material.probe_zero_key_hit {bits : Nat} (K : Consts) (materialTable : Table bits)
    (pos : Position) (hkey : pos.material_key = 0)
    (hzero : materialTable (slotOf bits pos.material_key) = zeroEntry) :
    (materialTable (slotOf bits pos.material_key)).key = pos.material_key ∧
    (Material.probe K materialTable pos).materialTable = materialTable ∧
    (Material.probe K materialTable pos).entry = zeroEntry ∧
    (∀ c : Color, (Material.probe K materialTable pos).entry.factor c = 0) ∧
    (K.SCALE_FACTOR_NORMAL ≠ 0 → ∀ c : Color,
      ((Material.probe K materialTable pos).entry.factor c : Int) ≠ K.SCALE_FACTOR_NORMAL) ∧
    (Material.probe K materialTable pos).entry.gamePhase = 0 ∧
    (Material.probe K materialTable pos).entry.score = make_score 0 0 := by
  have hhit : (materialTable (slotOf bits pos.material_key)).key = pos.material_key := by
    rw [hzero, hkey]; rfl
  have he := probe_hit_entry K materialTable pos hhit
  rw [hzero] at he
  refine ⟨hhit, probe_hit_table K materialTable pos hhit, he, ?_, ?_, ?_, ?_⟩
  · intro c; rw [he]; rfl
  · intro h c
    rw [he]
    exact fun h0 => h h0.symm
  · rw [he]; rfl
  · rw [he]; rfl

/-- The instance of C19 on the zero table at a position with key 0 for which a miss
would compute the score (129, 122). -/
theorem Material.probe_zero_key_hit_witness :
    samplePosKey0.material_key = 0 ∧
    sampleTable (slotOf 2 samplePosKey0.material_key) = zeroEntry ∧
    scoreOf (pieceCountOf samplePosKey0) = make_score 129 122 ∧
    (Material.probe sampleConsts sampleTable samplePosKey0).entry = zeroEntry ∧
    (Material.probe sampleConsts sampleTable samplePosKey0).entry.score = make_score 0 0 :=
  ⟨rfl, rfl, by decide,
    (Material.probe_zero_key_hit sampleConsts sampleTable samplePosKey0 rfl rfl).2.2.1,
    (Material.probe_zero_key_hit sampleConsts sampleTable samplePosKey0 rfl rfl).2.2.2.2.2.2⟩

/-! ## The table after a sequence of calls -/

/-- One call keeps every slot either all zero or written for one of the positions of
`S`, with the neutral scale factors and a game phase within its bounds. -/
theorem probe_keeps_slots {bits : Nat} (K : Consts) (S : Position → Prop)
    (hlim : K.EndgameLimit < K.MidgameLimit) (hph : 0 ≤ K.PHASE_MIDGAME)
    (hbyte : 0 ≤ K.SCALE_FACTOR_NORMAL ∧ K.SCALE_FACTOR_NORMAL < 256)
    (t : Table bits) (pos : Position) (hpos : S pos)
    (ht : ∀ i, t i = zeroEntry ∨
      ((∃ p, S p ∧ p.material_key = (t i).key) ∧
        (∀ c : Color, ((t i).factor c : Int) = K.SCALE_FACTOR_NORMAL) ∧
        0 ≤ (t i).gamePhase ∧ (t i).gamePhase ≤ K.PHASE_MIDGAME)) :
    ∀ i, (Material.probe K t pos).materialTable i = zeroEntry ∨
      ((∃ p, S p ∧ p.material_key = ((Material.probe K t pos).materialTable i).key) ∧
        (∀ c : Color, (((Material.probe K t pos).materialTable i).factor c : Int)
          = K.SCALE_FACTOR_NORMAL) ∧
        0 ≤ ((Material.probe K t pos).materialTable i).gamePhase ∧
        ((Material.probe K t pos).materialTable i).gamePhase ≤ K.PHASE_MIDGAME) := by
  intro i
  by_cases h : (t (slotOf bits pos.material_key)).key = pos.material_key
  · rw [probe_hit_table K t pos h]
    exact ht i
  · rw [probe_miss_table K t pos h]
    by_cases hi : i = slotOf bits pos.material_key
    · subst hi
      right
      rw [Function.update_same]
      have hb := gamePhaseOf_bounds K (pos.non_pawn_material .WHITE)
        (pos.non_pawn_material .BLACK) hlim hph
      refine ⟨⟨pos, hpos, rfl⟩, ?_, ?_, ?_⟩
      · intro c
        rw [recompute_factor]
        exact toUInt8_of_byte _ hbyte.1 hbyte.2
      · rw [recompute_gamePhase]; exact hb.1
      · rw [recompute_gamePhase]; exact hb.2.1
    · rw [Function.update_noteq hi]
      exact ht i

/-- A sequence of calls keeps what one call keeps. -/
theorem probeAll_keeps_slots {bits : Nat} (K : Consts) (S : Position → Prop)
    (hlim : K.EndgameLimit < K.MidgameLimit) (hph : 0 ≤ K.PHASE_MIDGAME)
    (hbyte : 0 ≤ K.SCALE_FACTOR_NORMAL ∧ K.SCALE_FACTOR_NORMAL < 256)
    (ps : List Position) (hps : ∀ p ∈ ps, S p) (t : Table bits)
    (ht : ∀ i, t i = zeroEntry ∨
      ((∃ p, S p ∧ p.material_key = (t i).key) ∧
        (∀ c : Color, ((t i).factor c : Int) = K.SCALE_FACTOR_NORMAL) ∧
        0 ≤ (t i).gamePhase ∧ (t i).gamePhase ≤ K.PHASE_MIDGAME)) :
    ∀ i, probeAll K t ps i = zeroEntry ∨
      ((∃ p, S p ∧ p.material_key = (probeAll K t ps i).key) ∧
        (∀ c : Color, ((probeAll K t ps i).factor c : Int) = K.SCALE_FACTOR_NORMAL) ∧
        0 ≤ (probeAll K t ps i).gamePhase ∧
        (probeAll K t ps i).gamePhase ≤ K.PHASE_MIDGAME) := by
  induction ps generalizing t with
  | nil => exact ht
  | cons pos ps ih =>
    have hstep := probe_keeps_slots K S hlim hph hbyte t pos
      (hps pos (List.mem_cons_self pos ps)) ht
    exact ih (fun p hp => hps p (List.mem_cons_of_mem pos hp)) _ hstep

/-- C20 as stated fails: on the zero table of four slots, after a call for a position
with key 4 and a call for a position with key 0, which both address slot 0, that slot
has key 0 but is not all zero: it holds the neutral scale factor 64 and the score
(129, 122). -/
theorem probeAll_zero_key_slot_not_zero :
    sampleConsts.EndgameLimit < sampleConsts.MidgameLimit ∧
    0 ≤ sampleConsts.PHASE_MIDGAME ∧
    (probeAll sampleConsts (zeroTable 2) [samplePosKey4, samplePosKey0] 0).key = 0 ∧
    (probeAll sampleConsts (zeroTable 2) [samplePosKey4, samplePosKey0] 0).factor .WHITE
      = 64 ∧
    (probeAll sampleConsts (zeroTable 2) [samplePosKey4, samplePosKey0] 0).score
      = make_score 129 122 ∧
    probeAll sampleConsts (zeroTable 2) [samplePosKey4, samplePosKey0] 0 ≠ zeroEntry := by
  refine ⟨by decide, by decide, by decide, by decide, by decide, by decide⟩

/-- C20, amended: starting from the table in which every slot is all zero, after any
finite sequence of calls every slot whose key is not zero has both scale factors equal
to `SCALE_FACTOR_NORMAL` and a game phase in `[0, PHASE_MIDGAME]`; a slot whose key is
zero is all zero, or it was written for a position with key 0 of the sequence and then
has the neutral scale factors and a game phase within the bounds as well.  When no
position of the sequence has key 0, every slot with key zero is still all zero. -/
theorem probeAll_from_zero_slots {bits : Nat} (K : Consts)
    (hlim : K.EndgameLimit < K.MidgameLimit) (hph : 0 ≤ K.PHASE_MIDGAME)
    (hbyte : 0 ≤ K.SCALE_FACTOR_NORMAL ∧ K.SCALE_FACTOR_NORMAL < 256)
    (ps : List Position) (i : Fin (2 ^ bits)) :
    ((probeAll K (zeroTable bits) ps i).key ≠ 0 →
      (∀ c : Color, ((probeAll K (zeroTable bits) ps i).factor c : Int)
        = K.SCALE_FACTOR_NORMAL) ∧
      0 ≤ (probeAll K (zeroTable bits) ps i).gamePhase ∧
      (probeAll K (zeroTable bits) ps i).gamePhase ≤ K.PHASE_MIDGAME) ∧
    ((probeAll K (zeroTable bits) ps i).key = 0 →
      probeAll K (zeroTable bits) ps i = zeroEntry ∨
      ((∃ p ∈ ps, p.material_key = 0) ∧
        (∀ c : Color, ((probeAll K (zeroTable bits) ps i).factor c : Int)
          = K.SCALE_FACTOR_NORMAL) ∧
        0 ≤ (probeAll K (zeroTable bits) ps i).gamePhase ∧
        (probeAll K (zeroTable bits) ps i).gamePhase ≤ K.PHASE_MIDGAME)) ∧
    ((∀ p ∈ ps, p.material_key ≠ 0) → (probeAll K (zeroTable bits) ps i).key = 0 →
      probeAll K (zeroTable bits) ps i = zeroEntry) := by
  have h := probeAll_keeps_slots K (fun p => p ∈ ps) hlim hph hbyte ps (fun _ hp => hp)
    (zeroTable bits) (fun _ => Or.inl rfl) i
  refine ⟨?_, ?_, ?_⟩
  · intro hk
    rcases h with h | h
    · rw [h] at hk; exact absurd rfl hk
    · exact h.2
  · intro hk
    rcases h with h | ⟨⟨p, hp, hpk⟩, hrest⟩
    · exact Or.inl h
    · exact Or.inr ⟨⟨p, hp, by rw [hpk, hk]⟩, hrest⟩
  · intro hne hk
    rcases h with h | ⟨⟨p, hp, hpk⟩, _⟩
    · exact h
    · exact absurd (by rw [hpk, hk]) (hne p hp)

/-- The amended C20 on a table of four slots after calls for `samplePos` (key 5),
`samplePosB` (key 9) and `samplePosHeavy` (key 6): slot 1 holds key 9 with the neutral
factors. -/
theorem probeAll_from_zero_slots_witness :
    sampleConsts.EndgameLimit < sampleConsts.MidgameLimit ∧
    0 ≤ sampleConsts.PHASE_MIDGAME ∧
    (0 ≤ sampleConsts.SCALE_FACTOR_NORMAL ∧ sampleConsts.SCALE_FACTOR_NORMAL < 256) ∧
    (probeAll sampleConsts (zeroTable 2) [samplePos, samplePosB, samplePosHeavy] 1).key
      = 9 ∧
    (∀ c : Color,
      ((probeAll sampleConsts (zeroTable 2) [samplePos, samplePosB, samplePosHeavy]
        1).factor c : Int) = sampleConsts.SCALE_FACTOR_NORMAL) ∧
    probeAll sampleConsts (zeroTable 2) [samplePos, samplePosB, samplePosHeavy] 0
      = zeroEntry :=
  ⟨by decide, by decide, by decide, by decide,
    ((probeAll_from_zero_slots sampleConsts (by decide) (by decide) (by decide)
      [samplePos, samplePosB, samplePosHeavy] (1 : Fin (2 ^ 2))).1 (by decide)).1,
    (probeAll_from_zero_slots sampleConsts (by decide) (by decide) (by decide)
      [samplePos, samplePosB, samplePosHeavy] (0 : Fin (2 ^ 2))).2.2
      (by decide) (by decide)⟩

end Stockfish
